import Mathlib

/-!
# eth2-deposit-tracker: a verification development for `main.go`

The program watches one contract address for `DepositEvent` logs and prints
one line per deposit.  This file embeds the three routines of `main.go` that
carry its behaviour:

* the ingestion goroutine launched by `start` (lines 93-110),
* the orchestration sequence of `start` (lines 66-118),
* `handleSignals` (lines 120-138) and the tail of `main` (lines 48-56).

Library calls (`abi.Event.Match`, `abi.Event.ParseLog`, `tracker.Tracker`,
`tracker.Filter`) are parameters of the embedding.  The Go runtime's own
behaviour (slice bounds checks, interface type assertions, `select`) is
modelled explicitly.
-/

namespace DepositTracker

/-! ## Data model -/

/-- An error value of Go's `error` interface, identified by its message. -/
abbrev Err := String

/-- The type `web3.Address`, a 20 byte array. -/
structure Address where
  bytes : List UInt8
  deriving DecidableEq, Repr

/-- The fields of `web3.Log` that the program or the ABI matcher can read. -/
structure Log where
  BlockNumber : Nat
  Address : Address
  Topics : List (List UInt8)
  Data : List UInt8
  deriving DecidableEq, Repr

/-- The type `tracker.Event`: one batch of log changes delivered on `f.EventCh`. -/
structure LogDelta where
  Added : List Log
  Removed : List Log
  deriving DecidableEq, Repr

/-- A decoded ABI value as stored under `interface{}` in the map returned by
`ParseLog`: either a `[]byte` or a value of some other dynamic type. -/
inductive Value where
  | bytes (b : List UInt8)
  | other (tag : String)
  deriving DecidableEq, Repr

/-- The result map of `ParseLog`, `map[string]interface{}`, as an association list. -/
abbrev Vals := List (String × Value)

/-- The two methods of `abi.Event` that the ingestion loop calls on `depositEvent`. -/
structure Event where
  Match : Log → Bool
  ParseLog : Log → Except Err Vals

/-- The ways the ingestion goroutine can panic while handling one log. -/
inductive Fault where
  /-- The `panic(err)` of line 100, carrying the error returned by `ParseLog`. -/
  | parseError (e : Err)
  /-- The type assertion `vals[name].([]byte)` on a missing key or a non-`[]byte` value. -/
  | typeAssertion (name : String)
  /-- The bounds check of `binary.LittleEndian.Uint64` on a slice shorter than 8 bytes. -/
  | indexOutOfRange (name : String)
  deriving DecidableEq, Repr

/-- What the ingestion goroutine does, in program order.  `report` is the
`fmt.Printf` of line 106, tagged with the log being processed. -/
inductive Obs where
  | matchCall (log : Log)
  | parseCall (log : Log)
  | report (log : Log) (line : String)
  deriving DecidableEq, Repr

/-! ## Decoding (lines 103-106) -/

/-- Go's `binary.LittleEndian.Uint64`: the bounds check `_ = b[7]` panics on a
slice shorter than 8 bytes; otherwise the first 8 bytes are combined by shifts
and bitwise or into a `uint64`. -/
def Uint64 (b : List UInt8) : Option Nat :=
  match b with
  | b0 :: b1 :: b2 :: b3 :: b4 :: b5 :: b6 :: b7 :: _ =>
    some ((b0.toNat ||| b1.toNat <<< 8 ||| b2.toNat <<< 16 ||| b3.toNat <<< 24 |||
      b4.toNat <<< 32 ||| b5.toNat <<< 40 ||| b6.toNat <<< 48 ||| b7.toNat <<< 56) % 2 ^ 64)
  | _ => none

/-- The expression `binary.LittleEndian.Uint64(vals[name].([]byte))`: map lookup,
type assertion to `[]byte`, then the 8 byte little-endian read. -/
def decodeField (vals : Vals) (name : String) : Except Fault Nat :=
  match vals.lookup name with
  | some (Value.bytes b) =>
    match Uint64 b with
    | some v => Except.ok v
    | none => Except.error (Fault.indexOutOfRange name)
  | _ => Except.error (Fault.typeAssertion name)

/-- The text written by
`fmt.Printf("Deposit: Block %d Index %d Amount %d\n", log.BlockNumber, index, amount)`. -/
def depositLine (blockNumber index amount : Nat) : String :=
  "Deposit: Block " ++ toString blockNumber ++ " Index " ++ toString index ++
    " Amount " ++ toString amount ++ "\n"

/-! ## The ingestion loop (lines 93-110) -/

/-- The body of the inner loop (lines 97-107) for one log: the observations it
makes and the panic that ends it, if any. -/
def handleLog (ev : Event) (log : Log) : List Obs × Option Fault :=
  if ev.Match log then
    match ev.ParseLog log with
    | Except.error e => ([Obs.matchCall log, Obs.parseCall log], some (Fault.parseError e))
    | Except.ok vals =>
      match decodeField vals "index" with
      | Except.error f => ([Obs.matchCall log, Obs.parseCall log], some f)
      | Except.ok index =>
        match decodeField vals "amount" with
        | Except.error f => ([Obs.matchCall log, Obs.parseCall log], some f)
        | Except.ok amount =>
          ([Obs.matchCall log, Obs.parseCall log,
            Obs.report log (depositLine log.BlockNumber index amount)], none)
  else ([Obs.matchCall log], none)

/-- The inner loop `for _, log := range evnt.Added` (lines 96-108).  A panic
ends the goroutine, so no later log is touched. -/
def processAdded (ev : Event) : List Log → List Obs × Option Fault
  | [] => ([], none)
  | log :: rest =>
    match handleLog ev log with
    | (o, some f) => (o, some f)
    | (o, none) => (o ++ (processAdded ev rest).1, (processAdded ev rest).2)

/-- The outer loop `for { evnt := <-f.EventCh; ... }` (lines 94-109) run on the
batches received so far, in the order received.  Only `evnt.Added` is read. -/
def ingest (ev : Event) : List LogDelta → List Obs × Option Fault
  | [] => ([], none)
  | evnt :: more =>
    match processAdded ev evnt.Added with
    | (o, some f) => (o, some f)
    | (o, none) => (o ++ (ingest ev more).1, (ingest ev more).2)

/-- The lines printed, in order, among a sequence of observations. -/
def printed : List Obs → List String
  | [] => []
  | Obs.report _ line :: rest => line :: printed rest
  | _ :: rest => printed rest

/-- The logs for which a line was printed, in order. -/
def reportedLogs : List Obs → List Log
  | [] => []
  | Obs.report log _ :: rest => log :: reportedLogs rest
  | _ :: rest => reportedLogs rest

/-- The log an observation is about. -/
def Obs.log : Obs → Log
  | Obs.matchCall log => log
  | Obs.parseCall log => log
  | Obs.report log _ => log

/-! ## The orchestration sequence of `start` (lines 66-118) -/

/-- The type `tracker.FilterConfig`, with the two fields `start` sets. -/
structure FilterConfig where
  Async : Bool
  Address : List Address
  deriving DecidableEq, Repr

/-- A handle on a `*tracker.Filter` returned by `t.NewFilter`. -/
structure Filter where
  id : Nat
  deriving DecidableEq, Repr

/-- The type `web3.Block`; `start` reads only `Number`. -/
structure Block where
  Number : Nat
  deriving DecidableEq, Repr

/-- The collaborator calls made by `start`, given by their results.
`Start` and `Sync` return an `error` (`none` is Go's `nil`); `GetLastBlock`
returns a possibly nil `*web3.Block` and an `error`. -/
structure Tracker where
  Start : Option Err
  NewFilter : FilterConfig → Except Err Filter
  GetLastBlock : Filter → Except Err (Option Block)
  Sync : Filter → Option Err

/-- What `start` does, in program order. -/
inductive StartObs where
  | callStart
  | stdout (text : String)
  | callNewFilter (cfg : FilterConfig)
  | callGetLastBlock (f : Filter)
  /-- The `go func() { ... }()` statement of line 93: the ingestion loop is launched on `f.EventCh`. -/
  | goIngest (f : Filter)
  | callSync (f : Filter)
  deriving DecidableEq, Repr

/-- The statement `if lastBlock != nil { fmt.Printf("Last block processed: %d\n", ...) }`. -/
def lastBlockReport : Option Block → List StartObs
  | some b => [StartObs.stdout ("Last block processed: " ++ toString b.Number ++ "\n")]
  | none => []

/-- The function `start`: the observations it makes and the `error` it returns. -/
def start (t : Tracker) (targetAddr : Address) : List StartObs × Option Err :=
  match t.Start with
  | some err => ([StartObs.callStart], some err)
  | none =>
    let fConfig : FilterConfig := { Async := true, Address := [targetAddr] }
    match t.NewFilter fConfig with
    | Except.error err =>
      ([StartObs.callStart, StartObs.stdout "Tracker is ready\n",
        StartObs.callNewFilter fConfig], some err)
    | Except.ok f =>
      match t.GetLastBlock f with
      | Except.error err =>
        ([StartObs.callStart, StartObs.stdout "Tracker is ready\n",
          StartObs.callNewFilter fConfig, StartObs.callGetLastBlock f], some err)
      | Except.ok lastBlock =>
        match t.Sync f with
        | some err =>
          ([StartObs.callStart, StartObs.stdout "Tracker is ready\n",
            StartObs.callNewFilter fConfig, StartObs.callGetLastBlock f] ++
            lastBlockReport lastBlock ++ [StartObs.goIngest f, StartObs.callSync f], some err)
        | none =>
          ([StartObs.callStart, StartObs.stdout "Tracker is ready\n",
            StartObs.callNewFilter fConfig, StartObs.callGetLastBlock f] ++
            lastBlockReport lastBlock ++ [StartObs.goIngest f, StartObs.callSync f,
            StartObs.stdout "Historical sync is done\n"], none)

/-! ## `handleSignals` (lines 120-138) as a transition system

Three parties run concurrently: the operating system delivering signals into
the buffered `signalCh`, the goroutine executing `handleSignals`, and the
cleanup goroutine it launches.  A schedule is a list of their atomic steps. -/

/-- Where the goroutine executing `handleSignals` stands. -/
inductive MainPc where
  /-- Blocked at `<-signalCh` (line 124). -/
  | awaitFirst
  /-- Past line 124, before `make(chan struct{})` and the `go` statement (lines 126-130). -/
  | spawning
  /-- At the `select` (line 132). -/
  | selecting
  /-- Returned with the given code (line 134 or 136). -/
  | returned (code : Nat)
  deriving DecidableEq, Repr

/-- Where the cleanup goroutine of lines 127-130 stands. -/
inductive CleanupPc where
  | notStarted
  /-- Launched, before `cancelFn()` (line 128). -/
  | cancelling
  /-- After `cancelFn()` returned, before `close(gracefulCh)` (line 129). -/
  | closing
  /-- After `close(gracefulCh)`: the channel is closed. -/
  | done
  deriving DecidableEq, Repr

/-- The state of `handleSignals` after `signal.Notify` (line 122). -/
structure SigState where
  /-- Number of signals buffered in `signalCh` (capacity 4). -/
  pending : Nat
  main : MainPc
  cleanup : CleanupPc
  /-- Number of times `cancelFn` has been invoked. -/
  cancelCalls : Nat
  deriving DecidableEq, Repr

/-- The atomic steps of the three parties. -/
inductive Step where
  /-- A termination signal arrives; `os/signal` sends it without blocking, so it
  is dropped when the buffer is full. -/
  | signal
  /-- Line 124 receives the first signal. -/
  | recvFirst
  /-- Lines 126-130: `gracefulCh` is made and the cleanup goroutine is launched. -/
  | spawn
  /-- Line 128: `cancelFn()`. -/
  | cancel
  /-- Line 129: `close(gracefulCh)`. -/
  | close
  /-- The `select` takes `case <-signalCh` (line 133). -/
  | selectSignal
  /-- The `select` takes `case <-gracefulCh` (line 135). -/
  | selectGraceful
  deriving DecidableEq, Repr

/-- The state right after `signal.Notify`: nothing buffered, nothing launched. -/
def SigState.init : SigState :=
  { pending := 0, main := MainPc.awaitFirst, cleanup := CleanupPc.notStarted, cancelCalls := 0 }

/-- One atomic step; `none` when the step is not enabled in the state.  A
`select` case is enabled exactly when its channel is ready, and when both are
ready either case may be taken. -/
def step (s : SigState) : Step → Option SigState
  | Step.signal => some { s with pending := if s.pending < 4 then s.pending + 1 else s.pending }
  | Step.recvFirst =>
    if s.main = MainPc.awaitFirst ∧ 0 < s.pending then
      some { s with pending := s.pending - 1, main := MainPc.spawning }
    else none
  | Step.spawn =>
    if s.main = MainPc.spawning then
      some { s with main := MainPc.selecting, cleanup := CleanupPc.cancelling }
    else none
  | Step.cancel =>
    if s.cleanup = CleanupPc.cancelling then
      some { s with cleanup := CleanupPc.closing, cancelCalls := s.cancelCalls + 1 }
    else none
  | Step.close =>
    if s.cleanup = CleanupPc.closing then some { s with cleanup := CleanupPc.done } else none
  | Step.selectSignal =>
    if s.main = MainPc.selecting ∧ 0 < s.pending then
      some { s with pending := s.pending - 1, main := MainPc.returned 1 }
    else none
  | Step.selectGraceful =>
    if s.main = MainPc.selecting ∧ s.cleanup = CleanupPc.done then
      some { s with main := MainPc.returned 0 }
    else none

/-- Run a schedule from a state; `none` when some step is not enabled. -/
def run (s : SigState) : List Step → Option SigState
  | [] => some s
  | e :: es =>
    match step s e with
    | some s' => run s' es
    | none => none

/-- The value returned by `handleSignals` under a schedule, if it has returned. -/
def handleSignals (es : List Step) : Option Nat :=
  match run SigState.init es with
  | some s =>
    match s.main with
    | MainPc.returned code => some code
    | _ => none
  | none => none

/-- Scan of a schedule: `true` when the second `signal` step comes before any
`close` step, `false` when `close` comes first or there is no second signal.
The argument counts the signals seen so far. -/
def secondSignalBeforeCloseFrom : Nat → List Step → Bool
  | _, [] => false
  | n, Step.signal :: es => if 1 ≤ n then true else secondSignalBeforeCloseFrom (n + 1) es
  | _, Step.close :: _ => false
  | n, _ :: es => secondSignalBeforeCloseFrom n es

/-- Whether the second termination signal arrives strictly before the cleanup
goroutine closes `gracefulCh`. -/
def secondSignalBeforeClose (es : List Step) : Bool :=
  secondSignalBeforeCloseFrom 0 es

/-! ## The tail of `main` (lines 29-56) -/

/-- The exit status of the process as `main` determines it: `os.Exit(1)` when
`jsonrpc.NewClient` or `boltdbStore.New` fails; otherwise `handleSignals(cancelFn)`
is called as a statement, its result is dropped, and `main` returns, which ends
a Go process with status 0. -/
def main (newClientErr storeErr : Option Err) (handleSignalsResult : Nat) : Nat :=
  match newClientErr with
  | some _ => 1
  | none =>
    match storeErr with
    | some _ => 1
    | none =>
      let _dropped := handleSignalsResult
      0

/-! ## Specification-side definitions -/

/-- The unsigned little-endian value of a byte sequence, as the specification
words it: byte `i` has weight `256 ^ i`. -/
def littleEndianValue (b : List UInt8) : Nat :=
  b.foldr (fun x acc => x.toNat + 256 * acc) 0

/-! ## Derived views of a run -/

/-- All logs of the `Added` sequences of the batches, in the order the loop visits them. -/
def addedLogs : List LogDelta → List Log
  | [] => []
  | evnt :: more => evnt.Added ++ addedLogs more

/-- The lines the loop body prints for each log of a list, in order, each log
taken on its own. -/
def linesOf (ev : Event) : List Log → List String
  | [] => []
  | log :: rest => printed (handleLog ev log).1 ++ linesOf ev rest

/-- What holds of every state reached from `SigState.init` by a schedule `es`:
program order of the two goroutines, read off the schedule. -/
def Reached (es : List Step) (s : SigState) : Prop :=
  (0 < s.pending → Step.signal ∈ es) ∧
  (s.main ≠ MainPc.awaitFirst → Step.signal ∈ es ∧ Step.recvFirst ∈ es) ∧
  (s.main = MainPc.awaitFirst ∨ s.main = MainPc.spawning ↔ s.cleanup = CleanupPc.notStarted) ∧
  (s.cancelCalls = if s.cleanup = CleanupPc.closing ∨ s.cleanup = CleanupPc.done then 1 else 0) ∧
  (∀ code, s.main = MainPc.returned code →
    (code = 1 ∧ Step.selectSignal ∈ es ∧ Step.selectGraceful ∉ es) ∨
    (code = 0 ∧ Step.selectGraceful ∈ es ∧ Step.selectSignal ∉ es)) ∧
  ((∀ code, s.main ≠ MainPc.returned code) →
    Step.selectSignal ∉ es ∧ Step.selectGraceful ∉ es)

/-- Number of signals the goroutine executing `handleSignals` has taken out of
`signalCh`: one at line 124, one more when the `select` took the signal case. -/
def consumed (s : SigState) : Nat :=
  (if s.main = MainPc.awaitFirst then 0 else 1) + (if s.main = MainPc.returned 1 then 1 else 0)

/-- Bookkeeping of every state reached from `SigState.init` by a schedule `es`:
signals buffered and consumed against signals arrived (none is lost unless the
buffer was full), and the progress of the cleanup goroutine against its steps. -/
def Counted (es : List Step) (s : SigState) : Prop :=
  s.pending + consumed s ≤ es.count Step.signal ∧
  (s.pending + consumed s = es.count Step.signal ∨ 4 ≤ s.pending + consumed s) ∧
  (s.cleanup = CleanupPc.done ↔ Step.close ∈ es) ∧
  (s.cleanup = CleanupPc.closing ∨ s.cleanup = CleanupPc.done ↔ Step.cancel ∈ es)

/-! ## Sample event used at concrete inputs -/

/-- A sample event: a log matches when its first topic is the single byte `0xAA`;
its data is decoded as an 8 byte `amount` chunk followed by the `index` bytes,
and data shorter than 8 bytes is a decoding error. -/
def sampleEvent : Event where
  Match := fun log => log.Topics.head? == some [0xAA]
  ParseLog := fun log =>
    if log.Data.length < 8 then Except.error "abi: data too short"
    else Except.ok [("amount", Value.bytes (log.Data.take 8)),
                    ("index", Value.bytes (log.Data.drop 8))]

/-- A log matching `sampleEvent` at block 1000 with amount 200 and index 5. -/
def sampleLog : Log :=
  { BlockNumber := 1000, Address := ⟨[]⟩, Topics := [[0xAA]],
    Data := [200, 0, 0, 0, 0, 0, 0, 0, 5, 0, 0, 0, 0, 0, 0, 0] }

/-- A log matching `sampleEvent` whose data is too short for `ParseLog`. -/
def malformedLog : Log :=
  { BlockNumber := 1001, Address := ⟨[]⟩, Topics := [[0xAA]], Data := [1, 2, 3] }

/-- A log matching `sampleEvent` that parses, with a 3 byte `index` field. -/
def shortIndexLog : Log :=
  { BlockNumber := 1002, Address := ⟨[]⟩, Topics := [[0xAA]],
    Data := [200, 0, 0, 0, 0, 0, 0, 0, 5, 0, 0] }

/-- A log that does not match `sampleEvent`. -/
def foreignLog : Log :=
  { BlockNumber := 1003, Address := ⟨[]⟩, Topics := [[0xBB]], Data := [9, 9] }

/-- A tracker on which every call of `start` succeeds and no cursor is stored. -/
def sampleTracker : Tracker where
  Start := none
  NewFilter := fun _ => Except.ok ⟨7⟩
  GetLastBlock := fun _ => Except.ok none
  Sync := fun _ => none

/-- A tracker whose `Sync` fails after everything before it succeeded. -/
def syncFailTracker : Tracker where
  Start := none
  NewFilter := fun _ => Except.ok ⟨7⟩
  GetLastBlock := fun _ => Except.ok (some ⟨42⟩)
  Sync := fun _ => some "sync failed"


/-! ## Lemmas on the little-endian read -/

theorem or_shiftLeft_eq_add (x c i : Nat) (h : x < 2 ^ i) : x ||| c <<< i = x + c * 2 ^ i := by
  rw [Nat.shiftLeft_eq, Nat.or_comm, Nat.mul_comm, ← Nat.mul_add_lt_is_or h, Nat.add_comm,
    Nat.mul_comm]

theorem or_chain_eq_sum (a0 a1 a2 a3 a4 a5 a6 a7 : Nat)
    (h0 : a0 < 256) (h1 : a1 < 256) (h2 : a2 < 256) (h3 : a3 < 256)
    (h4 : a4 < 256) (h5 : a5 < 256) (h6 : a6 < 256) (h7 : a7 < 256) :
    (a0 ||| a1 <<< 8 ||| a2 <<< 16 ||| a3 <<< 24 ||| a4 <<< 32 ||| a5 <<< 40 |||
      a6 <<< 48 ||| a7 <<< 56) % 2 ^ 64 =
    a0 + 256 * (a1 + 256 * (a2 + 256 * (a3 + 256 * (a4 + 256 * (a5 + 256 * (a6 + 256 * a7)))))) := by
  rw [or_shiftLeft_eq_add a0 a1 8 (by omega)]
  rw [or_shiftLeft_eq_add _ a2 16 (by omega)]
  rw [or_shiftLeft_eq_add _ a3 24 (by omega)]
  rw [or_shiftLeft_eq_add _ a4 32 (by omega)]
  rw [or_shiftLeft_eq_add _ a5 40 (by omega)]
  rw [or_shiftLeft_eq_add _ a6 48 (by omega)]
  rw [or_shiftLeft_eq_add _ a7 56 (by omega)]
  omega

theorem Uint64_eq_littleEndianValue (b : List UInt8) (h : 8 ≤ b.length) :
    Uint64 b = some (littleEndianValue (b.take 8)) := by
  match b, h with
  | b0 :: b1 :: b2 :: b3 :: b4 :: b5 :: b6 :: b7 :: rest, _ =>
    simp only [Uint64, littleEndianValue, List.take_succ_cons, List.take_zero, List.foldr_cons,
      List.foldr_nil, Option.some.injEq]
    have := or_chain_eq_sum b0.toNat b1.toNat b2.toNat b3.toNat b4.toNat b5.toNat b6.toNat b7.toNat
      b0.toNat_lt b1.toNat_lt b2.toNat_lt b3.toNat_lt b4.toNat_lt b5.toNat_lt b6.toNat_lt b7.toNat_lt
    simpa using this

theorem Uint64_none_of_short (b : List UInt8) (h : b.length < 8) : Uint64 b = none := by
  match b, h with
  | [], _ => rfl
  | [_], _ => rfl
  | [_, _], _ => rfl
  | [_, _, _], _ => rfl
  | [_, _, _, _], _ => rfl
  | [_, _, _, _, _], _ => rfl
  | [_, _, _, _, _, _], _ => rfl
  | [_, _, _, _, _, _, _], _ => rfl
  | _ :: _ :: _ :: _ :: _ :: _ :: _ :: _ :: _, h => simp at h; omega

theorem decodeField_of_bytes (vals : Vals) (name : String) (b : List UInt8)
    (hl : vals.lookup name = some (Value.bytes b)) (hb : 8 ≤ b.length) :
    decodeField vals name = Except.ok (littleEndianValue (b.take 8)) := by
  simp [decodeField, hl, Uint64_eq_littleEndianValue b hb]

theorem decodeField_of_short (vals : Vals) (name : String) (b : List UInt8)
    (hl : vals.lookup name = some (Value.bytes b)) (hb : b.length < 8) :
    decodeField vals name = Except.error (Fault.indexOutOfRange name) := by
  simp [decodeField, hl, Uint64_none_of_short b hb]

/-! ## Lemmas on the loop body -/

theorem handleLog_not_match (ev : Event) (log : Log) (h : ev.Match log = false) :
    handleLog ev log = ([Obs.matchCall log], none) := by
  simp [handleLog, h]

/-- The loop body either stops in a panic after the calls it made, or ends
normally, with a report exactly when the log matches. -/
theorem handleLog_cases (ev : Event) (log : Log) :
    (ev.Match log = false ∧ handleLog ev log = ([Obs.matchCall log], none)) ∨
    (ev.Match log = true ∧ ∃ f,
      handleLog ev log = ([Obs.matchCall log, Obs.parseCall log], some f)) ∨
    (ev.Match log = true ∧ ∃ line,
      handleLog ev log = ([Obs.matchCall log, Obs.parseCall log, Obs.report log line], none)) := by
  unfold handleLog
  split
  · rename_i hm
    right
    split
    · exact Or.inl ⟨hm, _, rfl⟩
    · split
      · exact Or.inl ⟨hm, _, rfl⟩
      · split
        · exact Or.inl ⟨hm, _, rfl⟩
        · exact Or.inr ⟨hm, _, rfl⟩
  · rename_i hm
    exact Or.inl ⟨by simpa using hm, rfl⟩

theorem handleLog_parseError (ev : Event) (log : Log) (e : Err)
    (hm : ev.Match log = true) (hp : ev.ParseLog log = Except.error e) :
    handleLog ev log = ([Obs.matchCall log, Obs.parseCall log], some (Fault.parseError e)) := by
  simp [handleLog, hm, hp]

theorem handleLog_obs_log (ev : Event) (log : Log) (o : Obs) (h : o ∈ (handleLog ev log).1) :
    o.log = log := by
  rcases handleLog_cases ev log with ⟨_, h1⟩ | ⟨_, f, h1⟩ | ⟨_, line, h1⟩ <;>
    rw [h1] at h <;> simp at h <;> rcases h with h | h | h <;> subst_vars <;> rfl

/-! ## Lemmas on the loops -/

theorem processAdded_cons (ev : Event) (log : Log) (rest : List Log) :
    processAdded ev (log :: rest) =
      if (handleLog ev log).2 = none then
        ((handleLog ev log).1 ++ (processAdded ev rest).1, (processAdded ev rest).2)
      else handleLog ev log := by
  rw [processAdded]
  rcases h : handleLog ev log with ⟨o, _ | f⟩ <;> simp

theorem processAdded_append (ev : Event) (xs ys : List Log) :
    processAdded ev (xs ++ ys) =
      if (processAdded ev xs).2 = none then
        ((processAdded ev xs).1 ++ (processAdded ev ys).1, (processAdded ev ys).2)
      else processAdded ev xs := by
  induction xs with
  | nil => simp [processAdded]
  | cons x xs ih =>
    rw [List.cons_append, processAdded_cons, processAdded_cons, ih]
    by_cases hx : (handleLog ev x).2 = none
    · by_cases hxs : (processAdded ev xs).2 = none
      · simp [hx, hxs]
      · simp [hx, hxs]
    · simp [hx]

theorem addedLogs_append (xs ys : List LogDelta) :
    addedLogs (xs ++ ys) = addedLogs xs ++ addedLogs ys := by
  induction xs with
  | nil => rfl
  | cons x xs ih => simp [addedLogs, ih]

/-- The nested loops visit the logs of all `Added` sequences as one sequence. -/
theorem ingest_eq_processAdded (ev : Event) (bs : List LogDelta) :
    ingest ev bs = processAdded ev (addedLogs bs) := by
  induction bs with
  | nil => rfl
  | cons b bs ih =>
    rw [ingest, addedLogs, processAdded_append, ih]
    rcases h : processAdded ev b.Added with ⟨o, _ | f⟩ <;> simp

theorem processAdded_no_fault (ev : Event) (xs : List Log)
    (h : ∀ L ∈ xs, (handleLog ev L).2 = none) : (processAdded ev xs).2 = none := by
  induction xs with
  | nil => rfl
  | cons x xs ih =>
    rw [processAdded_cons]
    simp only [h x (List.mem_cons_self x xs), if_true]
    exact ih (fun L hL => h L (List.mem_cons_of_mem x hL))

theorem mem_processAdded (ev : Event) (xs : List Log) (o : Obs)
    (h : o ∈ (processAdded ev xs).1) : ∃ L ∈ xs, o ∈ (handleLog ev L).1 := by
  induction xs with
  | nil => simp [processAdded] at h
  | cons x xs ih =>
    rw [processAdded_cons] at h
    by_cases hx : (handleLog ev x).2 = none
    · simp only [hx, if_true, List.mem_append] at h
      rcases h with h | h
      · exact ⟨x, List.mem_cons_self x xs, h⟩
      · obtain ⟨L, hL, hLo⟩ := ih h
        exact ⟨L, List.mem_cons_of_mem x hL, hLo⟩
    · simp only [hx, if_false] at h
      exact ⟨x, List.mem_cons_self x xs, h⟩

theorem reportedLogs_append (xs ys : List Obs) :
    reportedLogs (xs ++ ys) = reportedLogs xs ++ reportedLogs ys := by
  induction xs with
  | nil => rfl
  | cons x xs ih => cases x <;> simp [reportedLogs, ih]

theorem printed_append (xs ys : List Obs) :
    printed (xs ++ ys) = printed xs ++ printed ys := by
  induction xs with
  | nil => rfl
  | cons x xs ih => cases x <;> simp [printed, ih]

/-- The logs reported by the inner loop form a prefix of the matching logs, and
all of them when the loop ends without a panic. -/
theorem reportedLogs_processAdded (ev : Event) (xs : List Log) :
    reportedLogs (processAdded ev xs).1 <+: xs.filter ev.Match ∧
    ((processAdded ev xs).2 = none →
      reportedLogs (processAdded ev xs).1 = xs.filter ev.Match) := by
  induction xs with
  | nil => simp [processAdded, reportedLogs]
  | cons x xs ih =>
    rw [processAdded_cons]
    rcases handleLog_cases ev x with ⟨hm, h1⟩ | ⟨hm, f, h1⟩ | ⟨hm, line, h1⟩
    · simp only [h1, if_true, reportedLogs_append, reportedLogs, List.nil_append]
      simpa [hm] using ih
    · simp [h1, hm, reportedLogs]
    · simp only [h1, if_true, reportedLogs_append, reportedLogs, List.filter_cons, hm,
        List.cons_append, List.nil_append]
      refine ⟨?_, fun h => by rw [ih.2 h]⟩
      obtain ⟨t, ht⟩ := ih.1
      exact ⟨t, by simp [ht]⟩

/-- When no log faults, the lines printed by the inner loop are the lines of
the individual logs, concatenated in order. -/
theorem printed_processAdded (ev : Event) (xs : List Log)
    (h : ∀ L ∈ xs, (handleLog ev L).2 = none) :
    printed (processAdded ev xs).1 = linesOf ev xs := by
  induction xs with
  | nil => rfl
  | cons x xs ih =>
    rw [processAdded_cons]
    simp only [h x (List.mem_cons_self x xs), if_true, printed_append, linesOf]
    rw [ih (fun L hL => h L (List.mem_cons_of_mem x hL))]

/-- A log whose handling panics ends the loop: nothing after it is visited. -/
theorem processAdded_stop (ev : Event) (xs ys : List Log) (L : Log)
    (hf : (handleLog ev L).2 ≠ none) :
    processAdded ev (xs ++ L :: ys) = processAdded ev (xs ++ [L]) ∧
    (processAdded ev (xs ++ L :: ys)).2 ≠ none ∧
    ((processAdded ev xs).2 = none →
      processAdded ev (xs ++ L :: ys) =
        ((processAdded ev xs).1 ++ (handleLog ev L).1, (handleLog ev L).2)) := by
  have h1 : processAdded ev (L :: ys) = handleLog ev L := by
    rw [processAdded_cons]; simp [hf]
  have h2 : processAdded ev [L] = handleLog ev L := by
    rw [processAdded_cons]; simp [hf]
  rw [processAdded_append, processAdded_append ev xs [L], h1, h2]
  by_cases hxs : (processAdded ev xs).2 = none
  · simp [hxs, hf]
  · simp [hxs]

/-- A report for a log is only ever printed when the loop body succeeds on it. -/
theorem report_mem_processAdded (ev : Event) (xs : List Log) (L : Log) (line : String)
    (h : Obs.report L line ∈ (processAdded ev xs).1) : (handleLog ev L).2 = none := by
  obtain ⟨L', _, hL'⟩ := mem_processAdded ev xs _ h
  have hlog : L = L' := handleLog_obs_log ev L' _ hL'
  subst hlog
  rcases handleLog_cases ev L with ⟨_, h1⟩ | ⟨_, f, h1⟩ | ⟨_, line', h1⟩
  · rw [h1]
  · rw [h1] at hL'; simp at hL'
  · rw [h1]

theorem littleEndianValue_lt (b : List UInt8) : littleEndianValue b < 256 ^ b.length := by
  induction b with
  | nil => simp [littleEndianValue]
  | cons x xs ih =>
    have hx : x.toNat < 256 := x.toNat_lt
    have hstep : littleEndianValue (x :: xs) = x.toNat + 256 * littleEndianValue xs := rfl
    rw [hstep, List.length_cons, pow_succ]
    have : 256 * littleEndianValue xs + 256 ≤ 256 * 256 ^ xs.length := by
      have := Nat.mul_le_mul_left 256 (Nat.succ_le_of_lt ih)
      simpa [Nat.mul_succ] using this
    omega

theorem ingest_single (ev : Event) (log : Log) (removed : List Log) :
    ingest ev [⟨[log], removed⟩] = handleLog ev log := by
  rw [ingest_eq_processAdded]
  simp only [addedLogs, List.append_nil]
  rw [processAdded_cons]
  rcases h : handleLog ev log with ⟨o, _ | f⟩ <;> simp [processAdded]

/-- A run of the inner loop that panics does so at a first faulting log, which
matches the event; everything before it was handled without a panic. -/
theorem processAdded_first_fault (ev : Event) (xs : List Log) (f : Fault)
    (h : (processAdded ev xs).2 = some f) :
    ∃ pre L post, xs = pre ++ L :: post ∧ (∀ x ∈ pre, (handleLog ev x).2 = none) ∧
      ev.Match L = true ∧
      handleLog ev L = ([Obs.matchCall L, Obs.parseCall L], some f) ∧
      processAdded ev xs =
        ((processAdded ev pre).1 ++ [Obs.matchCall L, Obs.parseCall L], some f) := by
  induction xs with
  | nil => simp [processAdded] at h
  | cons x xs ih =>
    rw [processAdded_cons] at h
    by_cases hx : (handleLog ev x).2 = none
    · simp only [hx, if_true] at h
      obtain ⟨pre, L, post, hsplit, hpre, hm, hL, hrun⟩ := ih h
      refine ⟨x :: pre, L, post, by rw [hsplit]; rfl, ?_, hm, hL, ?_⟩
      · intro y hy
        rcases List.mem_cons.1 hy with hy | hy
        · rw [hy]; exact hx
        · exact hpre y hy
      · rw [processAdded_cons, processAdded_cons]
        simp only [hx, if_true, hrun, List.append_assoc]
    · simp only [hx, if_false] at h
      rcases handleLog_cases ev x with ⟨_, h1⟩ | ⟨hm, g, h1⟩ | ⟨_, line, h1⟩
      · rw [h1] at hx; exact absurd rfl hx
      · have hg : g = f := by rw [h1] at h; simpa using h
        subst hg
        refine ⟨[], x, xs, rfl, by simp, hm, h1, ?_⟩
        rw [processAdded_cons]
        simp [h1, processAdded]
      · rw [h1] at hx; exact absurd rfl hx

theorem printed_length (t : List Obs) : (printed t).length = (reportedLogs t).length := by
  induction t with
  | nil => rfl
  | cons o t ih => cases o <;> simp [printed, reportedLogs, ih]

/-! ## The claims -/

/-- C1: for a log that matches the event and whose decoded `index` and `amount`
fields are byte strings of at least 8 bytes, the loop body makes the two calls
and prints exactly `Deposit: Block b Index i Amount a` and a newline, in
decimal, where `b` is the block number of the log and `i`, `a` are the
little-endian values of the first 8 bytes of the two fields (both below
`2 ^ 64`).  The line is a function of the first 8 bytes only, and it is the
only line of a batch holding just this log. -/
theorem C1_deposit_line_little_endian (ev : Event) (log : Log) (vals : Vals)
    (ib ab : List UInt8) (removed : List Log)
    (hm : ev.Match log = true) (hp : ev.ParseLog log = Except.ok vals)
    (hi : vals.lookup "index" = some (Value.bytes ib))
    (ha : vals.lookup "amount" = some (Value.bytes ab))
    (hil : 8 ≤ ib.length) (hal : 8 ≤ ab.length) :
    handleLog ev log =
      ([Obs.matchCall log, Obs.parseCall log,
        Obs.report log ("Deposit: Block " ++ toString log.BlockNumber ++
          " Index " ++ toString (littleEndianValue (ib.take 8)) ++
          " Amount " ++ toString (littleEndianValue (ab.take 8)) ++ "\n")], none) ∧
    printed (ingest ev [⟨[log], removed⟩]).1 =
      ["Deposit: Block " ++ toString log.BlockNumber ++
          " Index " ++ toString (littleEndianValue (ib.take 8)) ++
          " Amount " ++ toString (littleEndianValue (ab.take 8)) ++ "\n"] ∧
    littleEndianValue (ib.take 8) < 2 ^ 64 ∧ littleEndianValue (ab.take 8) < 2 ^ 64 := by
  have hbody : handleLog ev log =
      ([Obs.matchCall log, Obs.parseCall log,
        Obs.report log ("Deposit: Block " ++ toString log.BlockNumber ++
          " Index " ++ toString (littleEndianValue (ib.take 8)) ++
          " Amount " ++ toString (littleEndianValue (ab.take 8)) ++ "\n")], none) := by
    simp only [handleLog, hm, hp, decodeField_of_bytes vals "index" ib hi hil,
      decodeField_of_bytes vals "amount" ab ha hal, depositLine, if_true]
  refine ⟨hbody, ?_, ?_, ?_⟩
  · rw [ingest_single, hbody]; rfl
  · have h := littleEndianValue_lt (ib.take 8)
    rw [List.length_take, Nat.min_eq_left hil] at h
    norm_num at h ⊢; exact h
  · have h := littleEndianValue_lt (ab.take 8)
    rw [List.length_take, Nat.min_eq_left hal] at h
    norm_num at h ⊢; exact h

/-- C1 at the sample log: index bytes `[5,0,0,0,0,0,0,0]`, amount bytes
`[200,0,0,0,0,0,0,0]`, block 1000. -/
theorem C1_deposit_line_witness :
    printed (ingest sampleEvent [⟨[sampleLog], []⟩]).1 =
      ["Deposit: Block 1000 Index 5 Amount 200\n"] :=
  (C1_deposit_line_little_endian sampleEvent sampleLog
    [("amount", Value.bytes [200, 0, 0, 0, 0, 0, 0, 0]),
     ("index", Value.bytes [5, 0, 0, 0, 0, 0, 0, 0])]
    [5, 0, 0, 0, 0, 0, 0, 0] [200, 0, 0, 0, 0, 0, 0, 0] []
    (by decide) rfl (by decide) (by decide) (by decide) (by decide)).2.1.trans (by decide)

/-- C2: when every matching log of the batches' `Added` sequences is handled
without a panic, the loop ends without a panic, the logs reported are exactly
the matching `Added` logs in the order of `Added` (batch after batch), the
lines printed are their lines in that order, and whenever a matching log `a`
stands before a matching log `b` the report for `a` is emitted before the
report for `b`. -/
theorem C2_reports_in_added_order (ev : Event) (bs : List LogDelta)
    (hok : ∀ L ∈ addedLogs bs, ev.Match L = true → (handleLog ev L).2 = none) :
    (ingest ev bs).2 = none ∧
    reportedLogs (ingest ev bs).1 = (addedLogs bs).filter ev.Match ∧
    printed (ingest ev bs).1 = linesOf ev (addedLogs bs) ∧
    (∀ pre mid post a b, addedLogs bs = pre ++ a :: (mid ++ b :: post) →
      ev.Match a = true → ev.Match b = true →
      ∃ t1 t2 t3 la lb,
        (ingest ev bs).1 = t1 ++ Obs.report a la :: (t2 ++ Obs.report b lb :: t3)) := by
  have hall : ∀ L ∈ addedLogs bs, (handleLog ev L).2 = none := by
    intro L hL
    cases hm : ev.Match L
    · rw [handleLog_not_match ev L hm]
    · exact hok L hL hm
  have hrep : ∀ L, L ∈ addedLogs bs → ev.Match L = true → ∃ line,
      handleLog ev L = ([Obs.matchCall L, Obs.parseCall L, Obs.report L line], none) := by
    intro L hL hm
    rcases handleLog_cases ev L with ⟨hm', _⟩ | ⟨_, f, h1⟩ | ⟨_, line, h1⟩
    · rw [hm] at hm'; cases hm'
    · have := hall L hL; rw [h1] at this; cases this
    · exact ⟨line, h1⟩
  rw [ingest_eq_processAdded]
  have hnf := processAdded_no_fault ev (addedLogs bs) hall
  refine ⟨hnf, (reportedLogs_processAdded ev (addedLogs bs)).2 hnf,
    printed_processAdded ev (addedLogs bs) hall, ?_⟩
  intro pre mid post a b hsplit hma hmb
  have hmem : ∀ L, L ∈ pre ++ a :: (mid ++ b :: post) → (handleLog ev L).2 = none :=
    fun L hL => hall L (hsplit ▸ hL)
  obtain ⟨la, hla⟩ := hrep a (by rw [hsplit]; simp) hma
  obtain ⟨lb, hlb⟩ := hrep b (by rw [hsplit]; simp) hmb
  have hpre : (processAdded ev pre).2 = none :=
    processAdded_no_fault ev pre (fun L hL => hmem L (by simp [hL]))
  have hmid : (processAdded ev mid).2 = none :=
    processAdded_no_fault ev mid (fun L hL => hmem L (by simp [hL]))
  refine ⟨(processAdded ev pre).1 ++ [Obs.matchCall a, Obs.parseCall a],
    (processAdded ev mid).1 ++ [Obs.matchCall b, Obs.parseCall b],
    (processAdded ev post).1, la, lb, ?_⟩
  rw [hsplit, processAdded_append, processAdded_cons, processAdded_append, processAdded_cons]
  simp [hpre, hmid, hla, hlb]

/-- C2 at a batch pair: two sample deposits around a foreign log, then one more. -/
theorem C2_reports_in_added_order_witness :
    reportedLogs (ingest sampleEvent
      [⟨[sampleLog, foreignLog, { sampleLog with BlockNumber := 7 }], []⟩,
       ⟨[{ sampleLog with BlockNumber := 9 }], []⟩]).1 =
      [sampleLog, { sampleLog with BlockNumber := 7 }, { sampleLog with BlockNumber := 9 }] :=
  (C2_reports_in_added_order sampleEvent
      [⟨[sampleLog, foreignLog, { sampleLog with BlockNumber := 7 }], []⟩,
       ⟨[{ sampleLog with BlockNumber := 9 }], []⟩]
      (by decide)).2.1.trans (by decide)

/-- C3, as stated, fails: a batch whose only `Added` log matches the event but
cannot be parsed has one matching log and no deposit line, so the lines do not
correspond one-to-one to the matching logs. -/
theorem C3_one_to_one_counterexample :
    sampleEvent.Match malformedLog = true ∧
    (addedLogs [⟨[malformedLog], []⟩]).filter sampleEvent.Match = [malformedLog] ∧
    printed (ingest sampleEvent [⟨[malformedLog], []⟩]).1 = [] ∧
    reportedLogs (ingest sampleEvent [⟨[malformedLog], []⟩]).1 = [] := by
  decide

/-- C3, amended: for a log on which `Match` is false the loop never calls
`ParseLog` and never prints a line.  Lines and reported logs pair up one to one.
When the run ends without a panic the reported logs are exactly the matching
`Added` logs, in order, with their lines.  When the run panics, the `Added`
logs split as `pre ++ L :: post` where `L` is the first log whose handling
panics (it matches, and got its `Match` and `ParseLog` calls and no line), the
run is the run on `pre` followed by those two calls, and the reported logs are
exactly the matching logs of `pre`, in order, with their lines.  A matching
log handled without a panic gets exactly one line. -/
theorem C3_no_parse_without_match (ev : Event) (bs : List LogDelta) :
    (∀ L, ev.Match L = false →
      Obs.parseCall L ∉ (ingest ev bs).1 ∧ ∀ line, Obs.report L line ∉ (ingest ev bs).1) ∧
    reportedLogs (ingest ev bs).1 <+: (addedLogs bs).filter ev.Match ∧
    (printed (ingest ev bs).1).length = (reportedLogs (ingest ev bs).1).length ∧
    ((ingest ev bs).2 = none →
      reportedLogs (ingest ev bs).1 = (addedLogs bs).filter ev.Match ∧
      printed (ingest ev bs).1 = linesOf ev (addedLogs bs)) ∧
    (∀ f, (ingest ev bs).2 = some f →
      ∃ pre L post, addedLogs bs = pre ++ L :: post ∧
        (∀ x ∈ pre, (handleLog ev x).2 = none) ∧
        ev.Match L = true ∧
        handleLog ev L = ([Obs.matchCall L, Obs.parseCall L], some f) ∧
        (ingest ev [⟨pre, []⟩]).2 = none ∧
        (ingest ev bs).1 = (ingest ev [⟨pre, []⟩]).1 ++ [Obs.matchCall L, Obs.parseCall L] ∧
        reportedLogs (ingest ev bs).1 = pre.filter ev.Match ∧
        printed (ingest ev bs).1 = linesOf ev pre) ∧
    (∀ x, ev.Match x = true → (handleLog ev x).2 = none →
      ∃ line, handleLog ev x = ([Obs.matchCall x, Obs.parseCall x, Obs.report x line], none)) := by
  have hsingle : ∀ pre : List Log, ingest ev [⟨pre, []⟩] = processAdded ev pre := by
    intro pre
    rw [ingest_eq_processAdded]
    simp [addedLogs]
  simp only [hsingle]
  rw [ingest_eq_processAdded]
  refine ⟨?_, (reportedLogs_processAdded ev (addedLogs bs)).1, printed_length _, ?_, ?_, ?_⟩
  · intro L hm
    have key : ∀ o, o ∈ (processAdded ev (addedLogs bs)).1 → o.log = L →
        o = Obs.matchCall L := by
      intro o ho hlog
      obtain ⟨L', _, hL'⟩ := mem_processAdded ev _ o ho
      have : L' = L := (handleLog_obs_log ev L' o hL').symm.trans hlog
      subst this
      rw [handleLog_not_match ev L' hm] at hL'
      simpa using hL'
    refine ⟨fun h => ?_, fun line h => ?_⟩
    · have := key _ h rfl
      cases this
    · have := key _ h rfl
      cases this
  · intro hnf
    refine ⟨(reportedLogs_processAdded ev (addedLogs bs)).2 hnf, ?_⟩
    have hall : ∀ x ∈ addedLogs bs, (handleLog ev x).2 = none := by
      intro x hx
      by_contra hne
      obtain ⟨pre, post, hsplit⟩ := List.append_of_mem hx
      have := (processAdded_stop ev pre post x hne).2.1
      rw [← hsplit] at this
      exact this hnf
    exact printed_processAdded ev _ hall
  · intro f hf
    obtain ⟨pre, L, post, hsplit, hpre, hm, hL, hrun⟩ :=
      processAdded_first_fault ev (addedLogs bs) f hf
    have hnf := processAdded_no_fault ev pre hpre
    refine ⟨pre, L, post, hsplit, hpre, hm, hL, hnf, by rw [hrun], ?_, ?_⟩
    · rw [hrun]
      simp only [reportedLogs_append, reportedLogs, List.append_nil]
      exact (reportedLogs_processAdded ev pre).2 hnf
    · rw [hrun]
      simp only [printed_append, printed, List.append_nil]
      exact printed_processAdded ev pre hpre
  · intro x hm hnf
    rcases handleLog_cases ev x with ⟨hm', _⟩ | ⟨_, f, h1⟩ | ⟨_, line, h1⟩
    · rw [hm] at hm'; cases hm'
    · rw [h1] at hnf; cases hnf
    · exact ⟨line, h1⟩

/-- C3 at a batch with a foreign log between a deposit and a malformed log. -/
theorem C3_no_parse_without_match_witness :
    Obs.parseCall foreignLog ∉
        (ingest sampleEvent [⟨[sampleLog, foreignLog, malformedLog], [foreignLog]⟩]).1 ∧
    reportedLogs (ingest sampleEvent [⟨[sampleLog, foreignLog, malformedLog], [foreignLog]⟩]).1
      = [sampleLog] :=
  ⟨((C3_no_parse_without_match sampleEvent
      [⟨[sampleLog, foreignLog, malformedLog], [foreignLog]⟩]).1 foreignLog (by decide)).1,
    by decide⟩

/-- C4: when `ParseLog` fails on a matching log `L` of some batch, the run ends
in a panic, no line is printed for `L`, and the run is the same as if the batch
ended at `L` and no later batch existed; when the loop reaches `L` (no panic
before it) the run is what came before, then the `Match` and `ParseLog` calls
on `L`, then the panic carrying the error of `ParseLog`. -/
theorem C4_parse_failure_is_fatal (ev : Event) (pre post : List LogDelta)
    (a1 a2 removed : List Log) (L : Log) (e : Err)
    (hm : ev.Match L = true) (hp : ev.ParseLog L = Except.error e) :
    (ingest ev (pre ++ ⟨a1 ++ L :: a2, removed⟩ :: post)).2 ≠ none ∧
    (∀ line, Obs.report L line ∉ (ingest ev (pre ++ ⟨a1 ++ L :: a2, removed⟩ :: post)).1) ∧
    ingest ev (pre ++ ⟨a1 ++ L :: a2, removed⟩ :: post) =
      ingest ev (pre ++ [⟨a1 ++ [L], removed⟩]) ∧
    ((ingest ev (pre ++ [⟨a1, removed⟩])).2 = none →
      ingest ev (pre ++ ⟨a1 ++ L :: a2, removed⟩ :: post) =
        ((ingest ev (pre ++ [⟨a1, removed⟩])).1 ++ [Obs.matchCall L, Obs.parseCall L],
          some (Fault.parseError e))) := by
  have hL := handleLog_parseError ev L e hm hp
  have hf : (handleLog ev L).2 ≠ none := by rw [hL]; simp
  have hstop := processAdded_stop ev (addedLogs pre ++ a1) (a2 ++ addedLogs post) L hf
  have e1 : addedLogs (pre ++ ⟨a1 ++ L :: a2, removed⟩ :: post) =
      (addedLogs pre ++ a1) ++ L :: (a2 ++ addedLogs post) := by
    simp [addedLogs_append, addedLogs]
  have e2 : addedLogs (pre ++ [⟨a1 ++ [L], removed⟩]) = (addedLogs pre ++ a1) ++ [L] := by
    simp [addedLogs_append, addedLogs]
  have e3 : addedLogs (pre ++ [⟨a1, removed⟩]) = addedLogs pre ++ a1 := by
    simp [addedLogs_append, addedLogs]
  simp only [ingest_eq_processAdded, e1, e2, e3]
  refine ⟨hstop.2.1, ?_, hstop.1, ?_⟩
  · intro line hmem
    exact hf (report_mem_processAdded ev _ L line hmem)
  · intro hnf
    rw [hstop.2.2 hnf, hL]

/-- C4 at a batch `[sampleLog, malformedLog, sampleLog]` followed by another batch. -/
theorem C4_parse_failure_is_fatal_witness :
    ingest sampleEvent [⟨[sampleLog, malformedLog, sampleLog], []⟩, ⟨[sampleLog], []⟩] =
      ([Obs.matchCall sampleLog, Obs.parseCall sampleLog,
        Obs.report sampleLog "Deposit: Block 1000 Index 5 Amount 200\n",
        Obs.matchCall malformedLog, Obs.parseCall malformedLog],
        some (Fault.parseError "abi: data too short")) :=
  ((C4_parse_failure_is_fatal sampleEvent [] [⟨[sampleLog], []⟩] [sampleLog] [sampleLog] []
    malformedLog "abi: data too short" (by decide) rfl).2.2.2 (by decide)).trans (by decide)

/-- C5, as stated, fails: on a matching log whose decoded `index` field has 3
bytes `ParseLog` returns no error, and the panic that ends the run is the
bounds check of the little-endian read, not the error of `ParseLog`. -/
theorem C5_decode_error_counterexample :
    sampleEvent.Match shortIndexLog = true ∧
    sampleEvent.ParseLog shortIndexLog =
      Except.ok [("amount", Value.bytes [200, 0, 0, 0, 0, 0, 0, 0]),
                 ("index", Value.bytes [5, 0, 0])] ∧
    handleLog sampleEvent shortIndexLog =
      ([Obs.matchCall shortIndexLog, Obs.parseCall shortIndexLog],
        some (Fault.indexOutOfRange "index")) ∧
    (handleLog sampleEvent shortIndexLog).2 ≠ some (Fault.parseError "abi: data too short") :=
  ⟨by decide, rfl, by decide, by decide⟩

/-- C5, amended: on a matching log, an error returned by `ParseLog` ends the
loop body in `panic(err)` with that error; when `ParseLog` succeeds the panic is
never that of a `ParseLog` error: an `index` field under 8 bytes ends the body
in the bounds-check panic of the read of `index`, and an `amount` field under 8
bytes, once `index` was read, in the bounds-check panic of the read of
`amount`.  In each of these cases the body stops after the `Match` and
`ParseLog` calls, prints nothing, no run ever prints a line for the log, and
every run that has it among the `Added` logs ends in a panic. -/
theorem C5_short_field_never_reported (ev : Event) (L : Log)
    (hm : ev.Match L = true)
    (hshort : (∃ e, ev.ParseLog L = Except.error e) ∨
      ∃ vals b, ev.ParseLog L = Except.ok vals ∧ b.length < 8 ∧
        (vals.lookup "index" = some (Value.bytes b) ∨
         vals.lookup "amount" = some (Value.bytes b))) :
    (∀ e, ev.ParseLog L = Except.error e →
      handleLog ev L = ([Obs.matchCall L, Obs.parseCall L], some (Fault.parseError e))) ∧
    (∀ vals, ev.ParseLog L = Except.ok vals →
      ∀ e, (handleLog ev L).2 ≠ some (Fault.parseError e)) ∧
    (∀ vals b, ev.ParseLog L = Except.ok vals →
      vals.lookup "index" = some (Value.bytes b) → b.length < 8 →
      handleLog ev L =
        ([Obs.matchCall L, Obs.parseCall L], some (Fault.indexOutOfRange "index"))) ∧
    (∀ vals b i, ev.ParseLog L = Except.ok vals → decodeField vals "index" = Except.ok i →
      vals.lookup "amount" = some (Value.bytes b) → b.length < 8 →
      handleLog ev L =
        ([Obs.matchCall L, Obs.parseCall L], some (Fault.indexOutOfRange "amount"))) ∧
    (∃ f, handleLog ev L = ([Obs.matchCall L, Obs.parseCall L], some f)) ∧
    (handleLog ev L).2 ≠ none ∧
    printed (handleLog ev L).1 = [] ∧
    (∀ bs line, Obs.report L line ∉ (ingest ev bs).1) ∧
    (∀ pre post a1 a2 removed,
      (ingest ev (pre ++ ⟨a1 ++ L :: a2, removed⟩ :: post)).2 ≠ none) := by
  have hcall : ∃ f, handleLog ev L = ([Obs.matchCall L, Obs.parseCall L], some f) := by
    rcases hshort with ⟨e, he⟩ | ⟨vals, b, hv, hb, hi | ha⟩
    · exact ⟨_, handleLog_parseError ev L e hm he⟩
    · refine ⟨Fault.indexOutOfRange "index", ?_⟩
      simp only [handleLog, hm, hv, decodeField_of_short vals "index" b hi hb, if_true]
    · rcases hidx : decodeField vals "index" with f | v
      · exact ⟨f, by simp only [handleLog, hm, hv, hidx, if_true]⟩
      · refine ⟨Fault.indexOutOfRange "amount", ?_⟩
        simp only [handleLog, hm, hv, hidx, decodeField_of_short vals "amount" b ha hb, if_true]
  have hne : (handleLog ev L).2 ≠ none := by
    obtain ⟨f, hf⟩ := hcall
    rw [hf]; simp
  have hprinted : printed (handleLog ev L).1 = [] := by
    obtain ⟨f, hf⟩ := hcall
    rw [hf]; rfl
  have hfield : ∀ (vals : Vals) (name : String) (e : Err),
      decodeField vals name ≠ Except.error (Fault.parseError e) := by
    intro vals name e
    unfold decodeField
    split
    · split <;> simp
    · simp
  refine ⟨fun e he => handleLog_parseError ev L e hm he, ?_, ?_, ?_, hcall, hne, hprinted, ?_, ?_⟩
  · intro vals hv e he
    simp only [handleLog, hm, hv, if_true] at he
    rcases hidx : decodeField vals "index" with f | v
    · rw [hidx] at he
      simp only [Option.some.injEq] at he
      exact hfield vals "index" e (by rw [hidx, he])
    · rw [hidx] at he
      rcases hamt : decodeField vals "amount" with f | w
      · rw [hamt] at he
        simp only [Option.some.injEq] at he
        exact hfield vals "amount" e (by rw [hamt, he])
      · rw [hamt] at he
        cases he
  · intro vals b hv hi hb
    simp only [handleLog, hm, hv, decodeField_of_short vals "index" b hi hb, if_true]
  · intro vals b i hv hidx ha hb
    simp only [handleLog, hm, hv, hidx, decodeField_of_short vals "amount" b ha hb, if_true]
  · intro bs line hmem
    rw [ingest_eq_processAdded] at hmem
    exact hne (report_mem_processAdded ev _ L line hmem)
  · intro pre post a1 a2 removed
    have e1 : addedLogs (pre ++ ⟨a1 ++ L :: a2, removed⟩ :: post) =
        (addedLogs pre ++ a1) ++ L :: (a2 ++ addedLogs post) := by
      simp [addedLogs_append, addedLogs]
    rw [ingest_eq_processAdded, e1]
    exact (processAdded_stop ev _ _ L hne).2.1

/-- C5 at a log whose `index` field has 3 bytes: the run is the two calls and
the bounds-check panic of the read of `index`, and nothing is printed. -/
theorem C5_short_field_never_reported_witness :
    handleLog sampleEvent shortIndexLog =
      ([Obs.matchCall shortIndexLog, Obs.parseCall shortIndexLog],
        some (Fault.indexOutOfRange "index")) ∧
    printed (handleLog sampleEvent shortIndexLog).1 = [] :=
  ⟨(C5_short_field_never_reported sampleEvent shortIndexLog (by decide)
      (Or.inr ⟨[("amount", Value.bytes [200, 0, 0, 0, 0, 0, 0, 0]),
                ("index", Value.bytes [5, 0, 0])], [5, 0, 0], rfl, by decide,
                Or.inl (by decide)⟩)).2.2.1
      [("amount", Value.bytes [200, 0, 0, 0, 0, 0, 0, 0]), ("index", Value.bytes [5, 0, 0])]
      [5, 0, 0] rfl (by decide) (by decide),
    by decide⟩

/-- C8: two sequences of batches with the same `Added` sequences give the same
run (same calls, same lines, same panic if any), whatever their `Removed`
sequences; and every call and every line of a run is about a log taken from
an `Added` sequence. -/
theorem C8_removed_is_ignored (ev : Event) (bs bs' : List LogDelta)
    (h : bs.map LogDelta.Added = bs'.map LogDelta.Added) :
    ingest ev bs = ingest ev bs' ∧
    (∀ o ∈ (ingest ev bs).1, o.log ∈ addedLogs bs) := by
  have hadd : ∀ (xs ys : List LogDelta), xs.map LogDelta.Added = ys.map LogDelta.Added →
      addedLogs xs = addedLogs ys := by
    intro xs
    induction xs with
    | nil =>
      intro ys hxy
      cases ys with
      | nil => rfl
      | cons y ys => simp at hxy
    | cons x xs ih =>
      intro ys hxy
      cases ys with
      | nil => simp at hxy
      | cons y ys =>
        simp only [List.map_cons, List.cons.injEq] at hxy
        simp [addedLogs, hxy.1, ih ys hxy.2]
  refine ⟨by rw [ingest_eq_processAdded, ingest_eq_processAdded, hadd bs bs' h], ?_⟩
  intro o ho
  rw [ingest_eq_processAdded] at ho
  obtain ⟨L, hL, hLo⟩ := mem_processAdded ev _ o ho
  rw [handleLog_obs_log ev L o hLo]
  exact hL

/-- C8 at two batches that differ only in `Removed`. -/
theorem C8_removed_is_ignored_witness :
    ingest sampleEvent [⟨[sampleLog, foreignLog], []⟩] =
      ingest sampleEvent [⟨[sampleLog, foreignLog], [sampleLog, malformedLog]⟩] :=
  (C8_removed_is_ignored sampleEvent [⟨[sampleLog, foreignLog], []⟩]
    [⟨[sampleLog, foreignLog], [sampleLog, malformedLog]⟩] (by decide)).1

/-! ## Lemmas on `handleSignals` -/

theorem run_append (s : SigState) (xs ys : List Step) :
    run s (xs ++ ys) = (run s xs).bind (fun s' => run s' ys) := by
  induction xs generalizing s with
  | nil => rfl
  | cons x xs ih =>
    simp only [List.cons_append, run]
    cases step s x with
    | none => rfl
    | some s' => exact ih s'

theorem reached_init : Reached [] SigState.init := by
  simp [Reached, SigState.init]

theorem reached_step (es : List Step) (s s' : SigState) (e : Step)
    (h : Reached es s) (hs : step s e = some s') : Reached (es ++ [e]) s' := by
  obtain ⟨p, m, c, k⟩ := s
  unfold Reached at h ⊢
  cases e <;> simp only [step] at hs <;> (try split at hs) <;> cases hs <;>
    cases m <;> cases c <;> simp_all

theorem reached_run_from (es0 es : List Step) (s0 s : SigState)
    (h0 : Reached es0 s0) (hrun : run s0 es = some s) : Reached (es0 ++ es) s := by
  induction es generalizing es0 s0 with
  | nil =>
    simp only [run, Option.some.injEq] at hrun
    subst hrun
    simpa using h0
  | cons e es ih =>
    simp only [run] at hrun
    cases hstep : step s0 e with
    | none => rw [hstep] at hrun; cases hrun
    | some s1 =>
      rw [hstep] at hrun
      have := ih (es0 ++ [e]) s1 (reached_step es0 s0 s1 e h0 hstep) hrun
      simpa using this

theorem reached_run (es : List Step) (s : SigState)
    (hrun : run SigState.init es = some s) : Reached es s := by
  simpa using reached_run_from [] es SigState.init s reached_init hrun

/-- Once `handleSignals` has returned, no step changes its result. -/
theorem returned_stable (s s' : SigState) (es : List Step) (code : Nat)
    (h : s.main = MainPc.returned code) (hrun : run s es = some s') :
    s'.main = MainPc.returned code := by
  induction es generalizing s with
  | nil =>
    simp only [run, Option.some.injEq] at hrun
    subst hrun
    exact h
  | cons e es ih =>
    simp only [run] at hrun
    cases hstep : step s e with
    | none => rw [hstep] at hrun; cases hrun
    | some s1 =>
      rw [hstep] at hrun
      refine ih s1 ?_ hrun
      obtain ⟨p, m, c, k⟩ := s
      cases e <;> simp only [step] at hstep <;> (try split at hstep) <;> cases hstep <;>
        simp_all

theorem counted_init : Counted [] SigState.init := by
  simp [Counted, SigState.init, consumed]

theorem counted_step (es : List Step) (s s' : SigState) (e : Step)
    (hR : Reached es s) (h : Counted es s) (hs : step s e = some s') :
    Counted (es ++ [e]) s' := by
  obtain ⟨p, m, c, k⟩ := s
  unfold Reached at hR
  unfold Counted consumed at h ⊢
  cases e <;> simp only [step] at hs <;> (try split at hs) <;> cases hs <;>
    cases m <;> cases c <;> simp_all [List.count_append, List.count_cons] <;>
    (try split_ifs at *) <;> (try omega)

theorem tracked_run_from (es0 es : List Step) (s0 s : SigState)
    (h0 : Reached es0 s0 ∧ Counted es0 s0) (hrun : run s0 es = some s) :
    Reached (es0 ++ es) s ∧ Counted (es0 ++ es) s := by
  induction es generalizing es0 s0 with
  | nil =>
    simp only [run, Option.some.injEq] at hrun
    subst hrun
    simpa using h0
  | cons e es ih =>
    simp only [run] at hrun
    cases hstep : step s0 e with
    | none => rw [hstep] at hrun; cases hrun
    | some s1 =>
      rw [hstep] at hrun
      have := ih (es0 ++ [e]) s1
        ⟨reached_step es0 s0 s1 e h0.1 hstep, counted_step es0 s0 s1 e h0.1 h0.2 hstep⟩ hrun
      simpa using this

theorem counted_run (es : List Step) (s : SigState)
    (hrun : run SigState.init es = some s) : Counted es s := by
  simpa using (tracked_run_from [] es SigState.init s ⟨reached_init, counted_init⟩ hrun).2

theorem run_split (s t : SigState) (pre post : List Step) (e : Step)
    (hrun : run s (pre ++ e :: post) = some t) :
    ∃ s1 s2, run s pre = some s1 ∧ step s1 e = some s2 ∧ run s2 post = some t := by
  rw [run_append] at hrun
  cases hpre : run s pre with
  | none => rw [hpre] at hrun; cases hrun
  | some s1 =>
    rw [hpre] at hrun
    simp only [Option.bind, run] at hrun
    cases hstep : step s1 e with
    | none => rw [hstep] at hrun; cases hrun
    | some s2 =>
      rw [hstep] at hrun
      exact ⟨s1, s2, rfl, hstep, hrun⟩

/-- After `handleSignals` has returned, the `select` takes no further case. -/
theorem no_select_after_return (s t : SigState) (es : List Step) (code : Nat)
    (h : s.main = MainPc.returned code) (hrun : run s es = some t) :
    Step.selectSignal ∉ es ∧ Step.selectGraceful ∉ es := by
  induction es generalizing s with
  | nil => simp
  | cons e es ih =>
    simp only [run] at hrun
    cases hstep : step s e with
    | none => rw [hstep] at hrun; cases hrun
    | some s1 =>
      rw [hstep] at hrun
      have h1 : s1.main = MainPc.returned code := returned_stable s s1 [e] code h (by simp [run, hstep])
      have hrec := ih s1 h1 hrun
      have he : e ≠ Step.selectSignal ∧ e ≠ Step.selectGraceful := by
        constructor <;> intro hc <;> subst hc <;> simp [step, h] at hstep
      simp [hrec.1, hrec.2, he.1.symm, he.2.symm]

theorem select_ready_iff (es : List Step) (s : SigState)
    (hrun : run SigState.init es = some s) (hm : s.main = MainPc.selecting) :
    (0 < s.pending ↔ 2 ≤ es.count Step.signal) ∧
    (s.cleanup = CleanupPc.done ↔ Step.close ∈ es) := by
  have hC := counted_run es s hrun
  unfold Counted consumed at hC
  simp only [hm] at hC
  refine ⟨?_, hC.2.2.1⟩
  have h1 := hC.1
  have h2 := hC.2.1
  simp at h1 h2
  constructor <;> intro h <;> omega

/-- C6, as stated, fails.  In the first schedule the second signal arrives
after the first was received and strictly before `gracefulCh` is closed, yet
`handleSignals` returns 0: both channels are ready when the `select` runs and
it takes the graceful case.  In the second schedule the second signal arrives
only after `gracefulCh` is closed, yet `handleSignals` returns 1. -/
theorem C6_race_counterexample :
    (secondSignalBeforeClose [Step.signal, Step.recvFirst, Step.spawn, Step.signal,
        Step.cancel, Step.close, Step.selectGraceful] = true ∧
      handleSignals [Step.signal, Step.recvFirst, Step.spawn, Step.signal,
        Step.cancel, Step.close, Step.selectGraceful] = some 0) ∧
    (secondSignalBeforeClose [Step.signal, Step.recvFirst, Step.spawn, Step.cancel,
        Step.close, Step.signal, Step.selectSignal] = false ∧
      handleSignals [Step.signal, Step.recvFirst, Step.spawn, Step.cancel,
        Step.close, Step.signal, Step.selectSignal] = some 1) := by
  decide

/-- C6, amended: in every state `s` that `handleSignals` reaches under a
schedule `es`,
* every `cancelFn()` step of the schedule comes after a signal arrived and
  after line 124 received it, and `cancelFn` has been invoked at most once;
* a result of 1 comes from the one `select` step of the schedule, which took
  the signal case after line 124 had received the first signal and at least
  two signals had arrived; a result of 0 comes from the one `select` step,
  which took the graceful case after `cancelFn()` and `close(gracefulCh)`;
* at the `select`, the signal case is ready exactly when at least two signals
  have arrived (the first one was consumed by line 124), and the graceful case
  exactly when `gracefulCh` has been closed;
* when only the signal case is ready the result is 1, when only the graceful
  case is ready the result is 0, when both are ready either case can be taken,
  and when neither is ready the `select` blocks;
* once returned, the result never changes. -/
theorem C6_select_decides_result (es : List Step) (s : SigState)
    (hrun : run SigState.init es = some s) :
    (∀ pre post, es = pre ++ Step.cancel :: post →
      Step.signal ∈ pre ∧ Step.recvFirst ∈ pre) ∧
    s.cancelCalls ≤ 1 ∧
    (∀ code, s.main = MainPc.returned code →
      (code = 1 ∧ Step.selectGraceful ∉ es ∧
        ∃ pre post, es = pre ++ Step.selectSignal :: post ∧
          2 ≤ pre.count Step.signal ∧ Step.recvFirst ∈ pre ∧
          Step.selectSignal ∉ pre ∧ Step.selectSignal ∉ post) ∨
      (code = 0 ∧ Step.selectSignal ∉ es ∧
        ∃ pre post, es = pre ++ Step.selectGraceful :: post ∧
          Step.close ∈ pre ∧ Step.cancel ∈ pre ∧ Step.recvFirst ∈ pre ∧
          Step.selectGraceful ∉ pre ∧ Step.selectGraceful ∉ post)) ∧
    (s.main = MainPc.selecting →
      (0 < s.pending ↔ 2 ≤ es.count Step.signal) ∧
      (s.cleanup = CleanupPc.done ↔ Step.close ∈ es)) ∧
    (∀ e s' code, (∀ c, s.main ≠ MainPc.returned c) → step s e = some s' →
      s'.main = MainPc.returned code →
      s.main = MainPc.selecting ∧
      ((e = Step.selectSignal ∧ code = 1 ∧ 2 ≤ es.count Step.signal) ∨
       (e = Step.selectGraceful ∧ code = 0 ∧ Step.close ∈ es))) ∧
    (s.main = MainPc.selecting → 2 ≤ es.count Step.signal → Step.close ∉ es →
      step s Step.selectGraceful = none ∧
      ∃ s', step s Step.selectSignal = some s' ∧ s'.main = MainPc.returned 1) ∧
    (s.main = MainPc.selecting → es.count Step.signal < 2 → Step.close ∈ es →
      step s Step.selectSignal = none ∧
      ∃ s', step s Step.selectGraceful = some s' ∧ s'.main = MainPc.returned 0) ∧
    (s.main = MainPc.selecting → 2 ≤ es.count Step.signal → Step.close ∈ es →
      (∃ s', step s Step.selectSignal = some s' ∧ s'.main = MainPc.returned 1) ∧
      (∃ s', step s Step.selectGraceful = some s' ∧ s'.main = MainPc.returned 0)) ∧
    (s.main = MainPc.selecting → es.count Step.signal < 2 → Step.close ∉ es →
      step s Step.selectSignal = none ∧ step s Step.selectGraceful = none) ∧
    (∀ code es' s', s.main = MainPc.returned code → run s es' = some s' →
      s'.main = MainPc.returned code) := by
  have hR := reached_run es s hrun
  have hsel : s.main = MainPc.selecting →
      (0 < s.pending ↔ 2 ≤ es.count Step.signal) ∧
      (s.cleanup = CleanupPc.done ↔ Step.close ∈ es) := select_ready_iff es s hrun
  refine ⟨?_, ?_, ?_, hsel, ?_, ?_, ?_, ?_, ?_, ?_⟩
  · intro pre post hsplit
    subst hsplit
    obtain ⟨s1, s2, hpre, hstep, _⟩ := run_split _ _ _ _ _ hrun
    have hR1 := reached_run pre s1 hpre
    simp only [step] at hstep
    split at hstep
    · rename_i hc
      have hne : s1.main ≠ MainPc.awaitFirst := by
        intro hmain
        have := hR1.2.2.1.1 (Or.inl hmain)
        rw [hc] at this; cases this
      exact hR1.2.1 hne
    · cases hstep
  · rw [hR.2.2.2.1]; split <;> omega
  · intro code hret
    rcases hR.2.2.2.2.1 code hret with ⟨hc, hin, hnot⟩ | ⟨hc, hin, hnot⟩
    · left
      refine ⟨hc, hnot, ?_⟩
      obtain ⟨pre, post, hsplit⟩ := List.append_of_mem hin
      subst hsplit
      obtain ⟨s1, s2, hpre, hstep, hpost⟩ := run_split _ _ _ _ _ hrun
      have hR1 := reached_run pre s1 hpre
      have hm1 : s1.main = MainPc.selecting ∧ 0 < s1.pending := by
        by_contra hn
        simp [step, hn] at hstep
      have hm2 : s2.main = MainPc.returned 1 := by
        simp only [step, if_pos hm1] at hstep
        cases hstep
        rfl
      refine ⟨pre, post, rfl, ((select_ready_iff pre s1 hpre hm1.1).1).1 hm1.2, ?_, ?_, ?_⟩
      · exact (hR1.2.1 (by rw [hm1.1]; simp)).2
      · exact (hR1.2.2.2.2.2 (by intro c; rw [hm1.1]; simp)).1
      · exact (no_select_after_return s2 s post 1 hm2 hpost).1
    · right
      refine ⟨hc, hnot, ?_⟩
      obtain ⟨pre, post, hsplit⟩ := List.append_of_mem hin
      subst hsplit
      obtain ⟨s1, s2, hpre, hstep, hpost⟩ := run_split _ _ _ _ _ hrun
      have hR1 := reached_run pre s1 hpre
      have hC1 := counted_run pre s1 hpre
      have hm1 : s1.main = MainPc.selecting ∧ s1.cleanup = CleanupPc.done := by
        by_contra hn
        simp [step, hn] at hstep
      have hm2 : s2.main = MainPc.returned 0 := by
        simp only [step, if_pos hm1] at hstep
        cases hstep
        rfl
      refine ⟨pre, post, rfl, hC1.2.2.1.1 hm1.2, hC1.2.2.2.1 (Or.inr hm1.2), ?_, ?_, ?_⟩
      · exact (hR1.2.1 (by rw [hm1.1]; simp)).2
      · exact (hR1.2.2.2.2.2 (by intro c; rw [hm1.1]; simp)).2
      · exact (no_select_after_return s2 s post 0 hm2 hpost).2
  · intro e s' code hnot hstep hret
    have hmain : s.main = MainPc.selecting ∧
        ((e = Step.selectSignal ∧ code = 1 ∧ 0 < s.pending) ∨
         (e = Step.selectGraceful ∧ code = 0 ∧ s.cleanup = CleanupPc.done)) := by
      obtain ⟨p, m, c, k⟩ := s
      cases e <;> simp only [step] at hstep <;> (try split at hstep) <;> cases hstep <;>
        simp_all
    refine ⟨hmain.1, ?_⟩
    rcases hmain.2 with ⟨h1, h2, h3⟩ | ⟨h1, h2, h3⟩
    · exact Or.inl ⟨h1, h2, (hsel hmain.1).1.1 h3⟩
    · exact Or.inr ⟨h1, h2, (hsel hmain.1).2.1 h3⟩
  · intro hm hp hc
    have hp' : 0 < s.pending := (hsel hm).1.2 hp
    have hc' : s.cleanup ≠ CleanupPc.done := fun h => hc ((hsel hm).2.1 h)
    simp [step, hm, hp', hc']
  · intro hm hp hc
    have hp' : ¬ 0 < s.pending := fun h => by have := (hsel hm).1.1 h; omega
    have hc' : s.cleanup = CleanupPc.done := (hsel hm).2.2 hc
    simp [step, hm, hp', hc']
  · intro hm hp hc
    have hp' : 0 < s.pending := (hsel hm).1.2 hp
    have hc' : s.cleanup = CleanupPc.done := (hsel hm).2.2 hc
    simp [step, hm, hp', hc']
  · intro hm hp hc
    have hp' : ¬ 0 < s.pending := fun h => by have := (hsel hm).1.1 h; omega
    have hc' : s.cleanup ≠ CleanupPc.done := fun h => hc ((hsel hm).2.1 h)
    simp [step, hm, hp', hc']
  · intro code es' s' hm hrun'
    exact returned_stable s s' es' code hm hrun'

/-- C6 at the forced schedule: after the second signal and before `cancelFn()`
has run, only the signal case is ready and the `select` returns 1. -/
theorem C6_select_decides_result_witness :
    run SigState.init [Step.signal, Step.recvFirst, Step.spawn, Step.signal] =
      some { pending := 1, main := MainPc.selecting, cleanup := CleanupPc.cancelling,
             cancelCalls := 0 } ∧
    step { pending := 1, main := MainPc.selecting, cleanup := CleanupPc.cancelling,
           cancelCalls := 0 } Step.selectGraceful = none ∧
    ∃ s', step { pending := 1, main := MainPc.selecting, cleanup := CleanupPc.cancelling,
                 cancelCalls := 0 } Step.selectSignal = some s' ∧
      s'.main = MainPc.returned 1 :=
  ⟨by decide,
    (C6_select_decides_result [Step.signal, Step.recvFirst, Step.spawn, Step.signal]
      { pending := 1, main := MainPc.selecting, cleanup := CleanupPc.cancelling,
        cancelCalls := 0 }
      (by decide)).2.2.2.2.2.1 rfl (by decide) (by decide)⟩

/-- C7, evaluated: under the forced schedule `handleSignals` returns 1, and
`main` nevertheless ends the process with status 0, whatever `handleSignals`
returned. -/
theorem C7_main_drops_exit_code :
    handleSignals [Step.signal, Step.recvFirst, Step.spawn, Step.signal,
      Step.selectSignal] = some 1 ∧
    main none none 1 = 0 ∧
    ∀ code, main none none code = 0 :=
  ⟨by decide, rfl, fun _ => rfl⟩

theorem completion_ne_lastBlock (n : Nat) :
    "Historical sync is done\n" ≠ "Last block processed: " ++ toString n ++ "\n" := by
  intro h
  have h2 := congrArg String.data h
  simp at h2

/-- The five ways `start` can run, by the first call that fails. -/
theorem start_cases (t : Tracker) (a : Address) :
    (∃ e, t.Start = some e ∧ start t a = ([StartObs.callStart], some e)) ∨
    (∃ e, t.Start = none ∧ t.NewFilter { Async := true, Address := [a] } = Except.error e ∧
      start t a = ([StartObs.callStart, StartObs.stdout "Tracker is ready\n",
        StartObs.callNewFilter { Async := true, Address := [a] }], some e)) ∨
    (∃ f e, t.Start = none ∧ t.NewFilter { Async := true, Address := [a] } = Except.ok f ∧
      t.GetLastBlock f = Except.error e ∧
      start t a = ([StartObs.callStart, StartObs.stdout "Tracker is ready\n",
        StartObs.callNewFilter { Async := true, Address := [a] },
        StartObs.callGetLastBlock f], some e)) ∨
    (∃ f lb e, t.Start = none ∧ t.NewFilter { Async := true, Address := [a] } = Except.ok f ∧
      t.GetLastBlock f = Except.ok lb ∧ t.Sync f = some e ∧
      start t a = ([StartObs.callStart, StartObs.stdout "Tracker is ready\n",
        StartObs.callNewFilter { Async := true, Address := [a] },
        StartObs.callGetLastBlock f] ++ lastBlockReport lb ++
        [StartObs.goIngest f, StartObs.callSync f], some e)) ∨
    (∃ f lb, t.Start = none ∧ t.NewFilter { Async := true, Address := [a] } = Except.ok f ∧
      t.GetLastBlock f = Except.ok lb ∧ t.Sync f = none ∧
      start t a = ([StartObs.callStart, StartObs.stdout "Tracker is ready\n",
        StartObs.callNewFilter { Async := true, Address := [a] },
        StartObs.callGetLastBlock f] ++ lastBlockReport lb ++
        [StartObs.goIngest f, StartObs.callSync f,
          StartObs.stdout "Historical sync is done\n"], none)) := by
  cases hS : t.Start with
  | some e0 => exact Or.inl ⟨e0, rfl, by simp [start, hS]⟩
  | none =>
    cases hN : t.NewFilter { Async := true, Address := [a] } with
    | error e1 => exact Or.inr (Or.inl ⟨e1, rfl, rfl, by simp [start, hS, hN]⟩)
    | ok f =>
      cases hG : t.GetLastBlock f with
      | error e2 => exact Or.inr (Or.inr (Or.inl ⟨f, e2, rfl, rfl, hG, by simp [start, hS, hN, hG]⟩))
      | ok lb =>
        cases hY : t.Sync f with
        | some e3 =>
          exact Or.inr (Or.inr (Or.inr (Or.inl
            ⟨f, lb, e3, rfl, rfl, hG, hY, by simp [start, hS, hN, hG, hY]⟩)))
        | none =>
          exact Or.inr (Or.inr (Or.inr (Or.inr
            ⟨f, lb, rfl, rfl, hG, hY, by simp [start, hS, hN, hG, hY]⟩)))

theorem lastBlockReport_cases (lb : Option Block) :
    lastBlockReport lb = [] ∨
    ∃ n : Nat, lastBlockReport lb = [StartObs.stdout ("Last block processed: " ++ toString n ++ "\n")] := by
  cases lb with
  | none => exact Or.inl rfl
  | some b => exact Or.inr ⟨b.Number, rfl⟩

/-- C9: `start` returns nil exactly when `t.Start`, `t.NewFilter`,
`f.GetLastBlock` and `f.Sync` all succeed, and then its last action is printing
`Historical sync is done`; otherwise it returns the error of the first call
that failed and stops right after that call (the observations are listed in
full, so no later step and no completion message occurs); no call is made
twice; and a nil block from `GetLastBlock` is not a failure. -/
theorem C9_start_error_propagation (t : Tracker) (a : Address) :
    ((start t a).2 = none ↔
      (t.Start = none ∧ ∃ f lb, t.NewFilter { Async := true, Address := [a] } = Except.ok f ∧
        t.GetLastBlock f = Except.ok lb ∧ t.Sync f = none)) ∧
    ((start t a).2 = none →
      (start t a).1.getLast? = some (StartObs.stdout "Historical sync is done\n")) ∧
    (∀ e, t.Start = some e → start t a = ([StartObs.callStart], some e)) ∧
    (∀ e, t.Start = none → t.NewFilter { Async := true, Address := [a] } = Except.error e →
      start t a = ([StartObs.callStart, StartObs.stdout "Tracker is ready\n",
        StartObs.callNewFilter { Async := true, Address := [a] }], some e)) ∧
    (∀ f e, t.Start = none → t.NewFilter { Async := true, Address := [a] } = Except.ok f →
      t.GetLastBlock f = Except.error e →
      start t a = ([StartObs.callStart, StartObs.stdout "Tracker is ready\n",
        StartObs.callNewFilter { Async := true, Address := [a] },
        StartObs.callGetLastBlock f], some e)) ∧
    (∀ f lb e, t.Start = none → t.NewFilter { Async := true, Address := [a] } = Except.ok f →
      t.GetLastBlock f = Except.ok lb → t.Sync f = some e →
      (start t a).2 = some e ∧
      (start t a).1.getLast? = some (StartObs.callSync f) ∧
      StartObs.stdout "Historical sync is done\n" ∉ (start t a).1) ∧
    ((start t a).1.count StartObs.callStart ≤ 1 ∧
      (∀ cfg, (start t a).1.count (StartObs.callNewFilter cfg) ≤ 1) ∧
      (∀ f, (start t a).1.count (StartObs.callGetLastBlock f) ≤ 1) ∧
      (∀ f, (start t a).1.count (StartObs.goIngest f) ≤ 1) ∧
      (∀ f, (start t a).1.count (StartObs.callSync f) ≤ 1)) ∧
    (∀ f, t.Start = none → t.NewFilter { Async := true, Address := [a] } = Except.ok f →
      t.GetLastBlock f = Except.ok none → t.Sync f = none →
      start t a = ([StartObs.callStart, StartObs.stdout "Tracker is ready\n",
        StartObs.callNewFilter { Async := true, Address := [a] },
        StartObs.callGetLastBlock f, StartObs.goIngest f, StartObs.callSync f,
        StartObs.stdout "Historical sync is done\n"], none)) := by
  have hle : ∀ (p : Prop) [Decidable p], (if p then 1 else 0) ≤ 1 := by
    intro p _; split <;> omega
  rcases start_cases t a with ⟨e, h1, hs⟩ | ⟨e, h1, h2, hs⟩ | ⟨f, e, h1, h2, h3, hs⟩ |
    ⟨f, lb, e, h1, h2, h3, h4, hs⟩ | ⟨f, lb, h1, h2, h3, h4, hs⟩
  · rw [hs]
    refine ⟨?_, ?_, ?_, ?_, ?_, ?_, ⟨?_, ?_, ?_, ?_, ?_⟩, ?_⟩
    all_goals (intros; simp_all [List.count_cons])
  · rw [hs]
    refine ⟨?_, ?_, ?_, ?_, ?_, ?_, ⟨?_, ?_, ?_, ?_, ?_⟩, ?_⟩
    all_goals (intros; simp_all [List.count_cons])
  · rw [hs]
    refine ⟨?_, ?_, ?_, ?_, ?_, ?_, ⟨?_, ?_, ?_, ?_, ?_⟩, ?_⟩
    all_goals (intros; simp_all [List.count_cons])
  · rw [hs]
    rcases lastBlockReport_cases lb with hl | ⟨n, hl⟩ <;> rw [hl] <;>
      refine ⟨?_, ?_, ?_, ?_, ?_, ?_, ⟨?_, ?_, ?_, ?_, ?_⟩, ?_⟩
    all_goals (intros; simp_all [List.count_cons, completion_ne_lastBlock, lastBlockReport])
  · rw [hs]
    rcases lastBlockReport_cases lb with hl | ⟨n, hl⟩ <;> rw [hl] <;>
      refine ⟨?_, ?_, ?_, ?_, ?_, ?_, ⟨?_, ?_, ?_, ?_, ?_⟩, ?_⟩
    all_goals (intros; simp_all [List.count_cons, lastBlockReport])

/-- C10: whenever `start` calls `f.Sync`, the `go` statement launching the
ingestion loop on the same filter `f` is the step right before it; `f` is the
filter returned by the one `NewFilter` call, made earlier with `Async: true`
and the address list holding exactly the target address; and `Sync` is called
nowhere else in the run. -/
theorem C10_ingest_launched_before_sync (t : Tracker) (a : Address) (f : Filter)
    (h : StartObs.callSync f ∈ (start t a).1) :
    ∃ pre post,
      (start t a).1 = pre ++ StartObs.goIngest f :: StartObs.callSync f :: post ∧
      StartObs.callNewFilter { Async := true, Address := [a] } ∈ pre ∧
      t.NewFilter { Async := true, Address := [a] } = Except.ok f ∧
      (∀ cfg, StartObs.callNewFilter cfg ∈ (start t a).1 →
        cfg = { Async := true, Address := [a] }) ∧
      (∀ g, StartObs.callSync g ∉ pre) ∧ (∀ g, StartObs.callSync g ∉ post) := by
  rcases start_cases t a with ⟨e, h1, hs⟩ | ⟨e, h1, h2, hs⟩ | ⟨f0, e, h1, h2, h3, hs⟩ |
    ⟨f0, lb, e, h1, h2, h3, h4, hs⟩ | ⟨f0, lb, h1, h2, h3, h4, hs⟩
  · rw [hs] at h; simp at h
  · rw [hs] at h; simp at h
  · rw [hs] at h; simp at h
  · rw [hs] at h ⊢
    have hf : f = f0 := by
      cases lb <;> simpa [lastBlockReport] using h
    subst hf
    refine ⟨[StartObs.callStart, StartObs.stdout "Tracker is ready\n",
      StartObs.callNewFilter { Async := true, Address := [a] },
      StartObs.callGetLastBlock f] ++ lastBlockReport lb, [], by simp, by simp, h2, ?_, ?_, ?_⟩
    · intro cfg hc
      cases lb <;> simpa [lastBlockReport, eq_comm] using hc
    · intro g hg
      cases lb <;> simp [lastBlockReport] at hg
    · intro g hg
      simp at hg
  · rw [hs] at h ⊢
    have hf : f = f0 := by
      cases lb <;> simpa [lastBlockReport] using h
    subst hf
    refine ⟨[StartObs.callStart, StartObs.stdout "Tracker is ready\n",
      StartObs.callNewFilter { Async := true, Address := [a] },
      StartObs.callGetLastBlock f] ++ lastBlockReport lb,
      [StartObs.stdout "Historical sync is done\n"], by simp, by simp, h2, ?_, ?_, ?_⟩
    · intro cfg hc
      cases lb <;> simpa [lastBlockReport, eq_comm] using hc
    · intro g hg
      cases lb <;> simp [lastBlockReport] at hg
    · intro g hg
      simp at hg

/-- C10 at the tracker whose `Sync` fails: the launch of the ingestion loop is
the step right before the `Sync` call, after the `NewFilter` call. -/
theorem C10_ingest_launched_before_sync_witness :
    StartObs.callSync ⟨7⟩ ∈ (start syncFailTracker ⟨[1]⟩).1 ∧
    ∃ pre post,
      (start syncFailTracker ⟨[1]⟩).1 =
        pre ++ StartObs.goIngest ⟨7⟩ :: StartObs.callSync ⟨7⟩ :: post ∧
      StartObs.callNewFilter { Async := true, Address := [⟨[1]⟩] } ∈ pre :=
  ⟨by decide,
    match C10_ingest_launched_before_sync syncFailTracker ⟨[1]⟩ ⟨7⟩ (by decide) with
    | ⟨pre, post, h1, h2, _⟩ => ⟨pre, post, h1, h2⟩⟩

/-- The runs of `start` on the two sample trackers. -/
theorem start_samples :
    start sampleTracker ⟨[1]⟩ =
      ([StartObs.callStart, StartObs.stdout "Tracker is ready\n",
        StartObs.callNewFilter { Async := true, Address := [⟨[1]⟩] },
        StartObs.callGetLastBlock ⟨7⟩, StartObs.goIngest ⟨7⟩, StartObs.callSync ⟨7⟩,
        StartObs.stdout "Historical sync is done\n"], none) ∧
    start syncFailTracker ⟨[1]⟩ =
      ([StartObs.callStart, StartObs.stdout "Tracker is ready\n",
        StartObs.callNewFilter { Async := true, Address := [⟨[1]⟩] },
        StartObs.callGetLastBlock ⟨7⟩, StartObs.stdout "Last block processed: 42\n",
        StartObs.goIngest ⟨7⟩, StartObs.callSync ⟨7⟩], some "sync failed") := by
  decide


end DepositTracker
